import Mathlib

/-!
Verification of the task-orchestration core of the linux-status repository
(`src/app.py`).  The Python functions and classes relevant to the stated
properties are shallowly embedded as executable Lean definitions; external
processes are modelled by explicit world functions mapping an argv to the
spawned command's exit code and combined output.
-/

/-! ### Error taxonomy

The Python code signals failures with exceptions.  We distinguish the ones the
specification names:
* `commandExecutionError output` models the `RuntimeError` raised by `run_do`
  when a command exits non-zero (it carries the captured combined output);
* `parseError raw` models the `RuntimeError` raised by `systemd_users` when
  `loginctl` output does not match the assumed format (it carries the raw
  output);
* `valueError` models the `ValueError` raised by `int()` on a non-integer
  literal;
* `duplicateNameError name` models the `RuntimeError` raised by
  `TaskList.add` on a duplicate task name.
-/

inductive AppError where
  | commandExecutionError (output : String)
  | parseError (raw : String)
  | valueError
  | duplicateNameError (name : String)
deriving DecidableEq, Repr

/-! ### Python string primitives used by the parsing code -/

/-- The accumulator-passing core of `str.splitlines`: `cur` is the line built
so far.  A final partial line is yielded only if non-empty, matching Python
(`"a\nb".splitlines() == ["a","b"]`, `"a\n".splitlines() == ["a"]`).  The
outputs in scope separate lines with the newline character only. -/
def pySplitlinesAux (cur : String) : List Char → List String
  | [] => if cur = "" then [] else [cur]
  | c :: cs => if c = '\n' then cur :: pySplitlinesAux "" cs else pySplitlinesAux (cur.push c) cs

/-- Python `str.splitlines()`. -/
def pySplitlines (s : String) : List String := pySplitlinesAux "" s.data

/-- Python `str.lstrip()` (no argument): drop leading whitespace. -/
def pyLstrip (s : String) : String := String.mk (s.data.dropWhile Char.isWhitespace)

/-- The core of `str.split(sep, maxsplit)` for a single-character separator:
`cur` is the chunk built so far, `n` the number of splits still allowed.  Once
`n` is exhausted the remainder (separators included) becomes part of the last
chunk, matching Python (`"a b c d".split(" ", 2) == ["a","b","c d"]`).
Consecutive separators yield empty chunks, as in Python. -/
def pySplitAux (sep : Char) : List Char → Nat → List Char → List (List Char)
  | cur, _, [] => [cur]
  | cur, 0, rest => [cur ++ rest]
  | cur, n + 1, c :: cs =>
      if c = sep then cur :: pySplitAux sep [] n cs else pySplitAux sep (cur ++ [c]) (n + 1) cs

/-- Python `str.split(sep, maxsplit)` for a one-character `sep`. -/
def pySplit (sep : Char) (maxsplit : Nat) (s : String) : List String :=
  (pySplitAux sep [] maxsplit s.data).map String.mk

/-- Value of a list of decimal digit characters, `none` if empty or not all
digits. -/
def digitsToNat : List Char → Option Nat
  | [] => none
  | cs => cs.foldl (fun acc c => do
      let a ← acc
      if c.isDigit then some (a * 10 + (c.toNat - 48)) else none) (some 0)

/-- Python `int(s)` restricted to the shapes appearing here: an optional sign
followed by decimal digits.  A non-integer literal raises `ValueError`. -/
def pyIntE (s : String) : Except AppError Int :=
  match s.data with
  | '-' :: ds => match digitsToNat ds with
      | some n => .ok (-(n : Int))
      | none => .error .valueError
  | '+' :: ds => match digitsToNat ds with
      | some n => .ok (n : Int)
      | none => .error .valueError
  | ds => match digitsToNat ds with
      | some n => .ok (n : Int)
      | none => .error .valueError

/-! ### `split_by` (app.py lines 57-65)

The Python generator keeps an accumulator `group`, yields it whenever the
separator is met, and always yields the final (possibly empty) group. -/

/-- Accumulator-passing form of the `split_by` loop. -/
def splitByAux [DecidableEq α] (sep : α) : List α → List α → List (List α)
  | group, [] => [group]
  | group, x :: xs =>
      if x = sep then group :: splitByAux sep [] xs else splitByAux sep (group ++ [x]) xs

/-- `split_by(xs, sep)` from app.py, materialised as a list of groups. -/
def split_by [DecidableEq α] (xs : List α) (sep : α) : List (List α) := splitByAux sep [] xs

/-- Interleaving groups with a separator; the spec-side inverse used to state
that `split_by` reconstructs its input. -/
def joinSep (sep : α) : List (List α) → List α
  | [] => []
  | [g] => g
  | g :: gs => g ++ sep :: joinSep sep gs

/-! ### `run_do` (app.py lines 115-122)

`subprocess.run` is modelled by its observable outcome: the exit code and the
captured combined stdout+stderr text.  `run_do` returns the text on exit code
zero and otherwise raises a `RuntimeError` carrying the text. -/

def run_do (exitCode : Int) (output : String) : Except AppError String :=
  if exitCode = 0 then .ok output else .error (.commandExecutionError output)

/-- Sequential monadic map over `Except`: evaluate `f` on each element in
order and stop at the first raised error, as consuming a Python generator or
evaluating a comprehension does. -/
def exceptMapM (f : β → Except ε γ) : List β → Except ε (List γ)
  | [] => .ok []
  | b :: bs => do
      let c ← f b
      let cs ← exceptMapM f bs
      .ok (c :: cs)

instance {ε α : Type} [DecidableEq ε] [DecidableEq α] : DecidableEq (Except ε α) :=
  fun a b =>
    match a, b with
    | .ok x, .ok y =>
        if h : x = y then .isTrue (by rw [h]) else .isFalse (fun hc => h (Except.ok.inj hc))
    | .error e, .error f =>
        if h : e = f then .isTrue (by rw [h]) else .isFalse (fun hc => h (Except.error.inj hc))
    | .ok _, .error _ => .isFalse (fun hc => Except.noConfusion hc)
    | .error _, .ok _ => .isFalse (fun hc => Except.noConfusion hc)

/-- A world maps an argv to the exit code and combined output of spawning it. -/
def World : Type := List String → Int × String

/-- Running a command through the executor against a world. -/
def runWorld (w : World) (args : List String) : Except AppError String :=
  run_do (w args).1 (w args).2

/-! ### Environments (`env` dicts)

A process environment is modelled as a partial map from variable names to
values; Python dict assignment `env[k] = v` is pointwise update. -/

def Env : Type := String → Option String

/-- `env[k] = v`. -/
def envSet (env : Env) (k v : String) : Env :=
  fun x => if x = k then some v else env x

/-- Does the string start with a slash? -/
def startsWithSlash (s : String) : Bool :=
  match s.data with
  | '/' :: _ => true
  | _ => false

/-- Does the string end with a slash? -/
def endsWithSlash (s : String) : Bool :=
  match s.data.getLast? with
  | some '/' => true
  | _ => false

/-- `posixpath.join(a, b)` for the two-component calls appearing here:
if `b` is absolute it wins; else it is appended to `a`, with a slash inserted
unless `a` is empty or already ends with one. -/
def osPathJoin (a b : String) : String :=
  if startsWithSlash b then b
  else if a = "" ∨ endsWithSlash a then a ++ b
  else a ++ "/" ++ b

/-! ### `shlex.join` / `shlex.quote` / `shlex.split`

`Systemd.su` (app.py lines 191-195) passes `shlex.join(cmd.args)` as the
single argument of `su -c`.  We embed the CPython implementations:
`quote` wraps a word in single quotes unless all its characters are ASCII
alphanumerics or in `_@%+=:,.` or a slash or a dash, turning each embedded single quote into
a close-quote, a double-quoted quote and a reopen; `join` is
`" ".join(map(quote, args))`; `split` is the posix-mode `shlex` lexer with
`whitespace_split=True` and comments disabled (whitespace separates words,
single quotes are literal runs, double quotes allow backslash before the
double quote and the backslash itself, a bare backslash escapes the next
character; an unterminated quote or trailing escape raises, modelled as
`none`). -/

/-- The single-quote character. -/
def sqChar : Char := Char.ofNat 39

/-- The characters `shlex.quote` considers safe, spelled out: the `re.ASCII`
word characters (ASCII letters, digits, underscore) plus `@%+=:,.` and the
slash and dash characters. -/
def shSafeChars : List Char :=
  ['a', 'b', 'c', 'd', 'e', 'f', 'g', 'h', 'i', 'j', 'k', 'l', 'm',
   'n', 'o', 'p', 'q', 'r', 's', 't', 'u', 'v', 'w', 'x', 'y', 'z',
   'A', 'B', 'C', 'D', 'E', 'F', 'G', 'H', 'I', 'J', 'K', 'L', 'M',
   'N', 'O', 'P', 'Q', 'R', 'S', 'T', 'U', 'V', 'W', 'X', 'Y', 'Z',
   '0', '1', '2', '3', '4', '5', '6', '7', '8', '9',
   '_', '@', '%', '+', '=', ':', ',', '.', '/', '-']

/-- Is the character safe for `shlex.quote`? -/
def shSafe (c : Char) : Bool := decide (c ∈ shSafeChars)

/-- Replacement performed inside the single-quoted form: a single quote
becomes `'"'"'`, every other character stands for itself. -/
def sqEscape (c : Char) : List Char :=
  if c = sqChar then [sqChar, '"', sqChar, '"', sqChar] else [c]

/-- `shlex.quote`. -/
def shlexQuote (s : String) : String :=
  if s = "" then String.mk [sqChar, sqChar]
  else if s.data.all shSafe then s
  else String.mk (sqChar :: s.data.flatMap sqEscape ++ [sqChar])

/-- `shlex.join`: quote every word and join with single spaces. -/
def shlexJoin : List String → String
  | [] => ""
  | [a] => shlexQuote a
  | a :: rest => shlexQuote a ++ " " ++ shlexJoin rest

/-- The `shlex` whitespace set. -/
def isShWs (c : Char) : Bool := c = ' ' || c = '\t' || c = '\r' || c = '\n'

/-- Lexer modes of the posix `shlex` state machine: between words, inside a
word, inside single quotes, inside double quotes, after a backslash in a word,
after a backslash inside double quotes. -/
inductive LexMode where
  | out | word | sq | dq | esc | dqesc
deriving DecidableEq, Repr

/-- One pass of the posix `shlex` lexer; `acc` is the token built so far,
`none` models the `ValueError` raised on an unterminated quote or escape. -/
def shlexRun : LexMode → String → List Char → Option (List String)
  | .out, _, [] => some []
  | .word, acc, [] => some [acc]
  | .sq, _, [] => none
  | .dq, _, [] => none
  | .esc, _, [] => none
  | .dqesc, _, [] => none
  | .out, acc, c :: cs =>
      if isShWs c then shlexRun .out acc cs
      else if c = sqChar then shlexRun .sq "" cs
      else if c = '"' then shlexRun .dq "" cs
      else if c = '\\' then shlexRun .esc "" cs
      else shlexRun .word (String.singleton c) cs
  | .word, acc, c :: cs =>
      if isShWs c then (shlexRun .out "" cs).map (acc :: ·)
      else if c = sqChar then shlexRun .sq acc cs
      else if c = '"' then shlexRun .dq acc cs
      else if c = '\\' then shlexRun .esc acc cs
      else shlexRun .word (acc.push c) cs
  | .sq, acc, c :: cs =>
      if c = sqChar then shlexRun .word acc cs else shlexRun .sq (acc.push c) cs
  | .dq, acc, c :: cs =>
      if c = '"' then shlexRun .word acc cs
      else if c = '\\' then shlexRun .dqesc acc cs
      else shlexRun .dq (acc.push c) cs
  | .esc, acc, c :: cs => shlexRun .word (acc.push c) cs
  | .dqesc, acc, c :: cs =>
      if c = '"' || c = '\\' then shlexRun .dq (acc.push c) cs
      else shlexRun .dq ((acc.push '\\').push c) cs

/-- `shlex.split` in posix mode with `whitespace_split=True`. -/
def shlexSplit (s : String) : Option (List String) := shlexRun .out "" s.data

/-! ### Commands and the `Systemd` environment (app.py lines 163-236)

A `Cmd` is an argv plus the environment the spawned process would see.  A
plain `Command` has `env = None` in Python, meaning the process inherits
`os.environ`; we therefore model construction as a function of the ambient
`os.environ`. -/

structure Cmd where
  args : List String
  env : Env

/-- `Systemd.make_env`: copy `os.environ` and disable the pager and colors. -/
def make_env (osEnviron : Env) : Env :=
  envSet (envSet osEnviron "SYSTEMD_PAGER" "") "SYSTEMD_COLORS" "no"

/-- Constructor of a `Systemd` command. -/
def mkSystemd (osEnviron : Env) (args : List String) : Cmd :=
  ⟨args, make_env osEnviron⟩

/-- `Systemd.fix_su_env`: overwrite the target user's XDG runtime directory
and session bus address on a copy of the inner environment. -/
structure SystemdUser where
  uid : Int
  name : String
  runtime_dir : String
deriving DecidableEq, Repr

def fix_su_env (user : SystemdUser) (env : Env) : Env :=
  envSet (envSet env "XDG_RUNTIME_DIR" user.runtime_dir)
    "DBUS_SESSION_BUS_ADDRESS" ("unix:path=" ++ osPathJoin user.runtime_dir "bus")

/-- `Systemd.su`: wrap `cmd` as `su -c <shlex.join(cmd.args)> <name>`, with
the environment fixed up for the target user. -/
def Systemd.su (user : SystemdUser) (cmd : Cmd) : Cmd :=
  ⟨["su", "-c", shlexJoin cmd.args, user.name], fix_su_env user cmd.env⟩

/-- Argv of `Systemctl.system(*args)`:
`Ctl` appends `--full`, `.system` prepends `--system`. -/
def systemctlSystemArgs (args : List String) : List String :=
  "systemctl" :: "--system" :: args ++ ["--full"]

/-- Argv of `Systemctl.user(*args)`. -/
def systemctlUserArgs (args : List String) : List String :=
  "systemctl" :: "--user" :: args ++ ["--full"]

/-- Argv of `Journalctl.system(*args)`. -/
def journalctlSystemArgs (args : List String) : List String :=
  "journalctl" :: "--system" :: args ++ ["--full"]

/-- Argv of `Journalctl.user(*args)`. -/
def journalctlUserArgs (args : List String) : List String :=
  "journalctl" :: "--user" :: args ++ ["--full"]

/-- Argv of `Loginctl(*args)` (appends `--full`). -/
def loginctlArgs (args : List String) : List String :=
  "loginctl" :: args ++ ["--full"]

/-! ### Users (app.py lines 408-442) -/

/-- The `User` namedtuple as produced from the `pwd` database: integer uid. -/
structure User where
  uid : Int
  name : String
deriving DecidableEq, Repr

/-- The `User` namedtuple as produced by `list_users`: the Python code reuses
the same namedtuple but leaves the uid as the raw string column. -/
structure LoginUser where
  uid : String
  name : String
deriving DecidableEq, Repr

/-- `running_as_nobody`: scan the account database and, at the first entry
named `nobody`, report whether its uid is the effective uid (the scan stops
there even on a mismatch). -/
def running_as_nobody (euid : Int) : List User → Bool
  | [] => false
  | u :: rest => if u.name = "nobody" then decide (u.uid = euid) else running_as_nobody euid rest

/-- `running_as_root`: effective uid 0, or the `nobody` fallback identity. -/
def running_as_root (euid : Int) (pwAll : List User) : Bool :=
  euid = 0 || running_as_nobody euid pwAll

/-- Unit name probed by `user_instance_active`. -/
def user_unit (u : User) : String := "user@" ++ toString u.uid ++ ".service"

/-- Argv of the is-active probe `Systemctl.system('is-active', unit, '--quiet')`. -/
def isActiveArgs (u : User) : List String :=
  systemctlSystemArgs ["is-active", user_unit u, "--quiet"]

/-- `user_instance_active`: run the probe, interpret any failure as `False`
(the `try`/`except` swallows the command error). -/
def user_instance_active (w : World) (u : User) : Bool :=
  match runWorld w (isActiveArgs u) with
  | .ok _ => true
  | .error _ => false

/-! ### `systemd_users` (app.py lines 477-508)

The two `loginctl` invocations are modelled by their raw outputs. -/

/-- Argv of `Loginctl('list-users', '--no-legend')`. -/
def listUsersArgs : List String := loginctlArgs ["list-users", "--no-legend"]

/-- The fixed property list queried by `show_users`. -/
def loginctlProperties : List String := ["UID", "Name", "RuntimePath"]

/-- Argv of `Loginctl('show-user', *prop_args, '--value', *user_args)`. -/
def showUserArgs (names : List String) : List String :=
  loginctlArgs ("show-user" :: loginctlProperties.flatMap (fun p => ["-p", p]) ++ "--value" :: names)

/-- One line of `loginctl list-users --no-legend`: left-strip, split on single
spaces with maxsplit 2, require at least two columns, keep uid and name as
strings. -/
def parseUserLine (raw line : String) : Except AppError LoginUser :=
  let info := pySplit ' ' 2 (pyLstrip line)
  if info.length < 2 then .error (.parseError raw)
  else .ok ⟨info.headD "", info.getD 1 ""⟩

/-- The `list_users` inner function, as a function of the raw command output.
(The Python generator returns early on an empty line list, which coincides
with mapping over the empty list.) -/
def list_users (output : String) : Except AppError (List LoginUser) :=
  exceptMapM (parseUserLine output) (pySplitlines output)

/-- One property group of `loginctl show-user` output: exactly as many lines
as queried properties, uid converted with `int()`. -/
def parseGroup (raw : String) (g : List String) : Except AppError SystemdUser :=
  if g.length ≠ loginctlProperties.length then .error (.parseError raw)
  else do
    let uid ← pyIntE (g.headD "")
    .ok ⟨uid, g.getD 1 "", g.getD 2 ""⟩

/-- The `show_users` inner function: short-circuit on an empty user list
(without issuing the command), otherwise split the output lines into groups
separated by empty lines and parse each group. -/
def show_users (users : List LoginUser) (output : String) : Except AppError (List SystemdUser) :=
  let user_args := users.map (·.name)
  if user_args.isEmpty then .ok []
  else exceptMapM (parseGroup output) (split_by (pySplitlines output) "")

/-- `systemd_users`, as a function of the raw outputs of the two calls. -/
def systemd_users (listOutput showOutput : String) : Except AppError (List SystemdUser) := do
  let us ← list_users listOutput
  show_users us showOutput

/-! ### Task trees (app.py lines 125-177)

For the propagation claims a completed task tree is modelled by the outcomes
its leaf commands produced: a leaf carries the exit code and combined output
of its external command (its resolved future), a node carries named children
in insertion order.  `run()` only dispatches futures and has no observable
effect on the collected values, so `result()` is the function of interest:
a leaf re-raises through `run_do`, a `TaskList` collects
`{name: task.result()}` in insertion order, propagating the first error. -/

mutual
inductive TaskTree where
  | leaf (exitCode : Int) (output : String)
  | node (children : TaskForest)

inductive TaskForest where
  | nil
  | cons (name : String) (t : TaskTree) (rest : TaskForest)
end

/-- The Report tree: a scalar string or a mapping in insertion order. -/
inductive Report where
  | str (s : String)
  | dict (entries : List (String × Report))

mutual
/-- `Task.result` for a completed tree. -/
def TaskTree.result : TaskTree → Except AppError Report
  | .leaf code out => (run_do code out).map .str
  | .node cs => (TaskForest.result cs).map .dict

/-- `TaskList.result`: the comprehension `{name: task.result()}`. -/
def TaskForest.result : TaskForest → Except AppError (List (String × Report))
  | .nil => .ok []
  | .cons n t rest => do
      let r ← t.result
      let rs ← TaskForest.result rest
      .ok ((n, r) :: rs)
end

/-- `Task.complete` runs the tree and serializes `result()`; it fails exactly
when `result()` fails (serialization of a delivered Report is out of scope). -/
def TaskTree.complete (t : TaskTree) : Except AppError Report := t.result

mutual
/-- Does some leaf command of the tree exit non-zero? -/
def TaskTree.hasFailing : TaskTree → Bool
  | .leaf code _ => decide (code ≠ 0)
  | .node cs => cs.hasFailing

def TaskForest.hasFailing : TaskForest → Bool
  | .nil => false
  | .cons _ t rest => t.hasFailing || rest.hasFailing
end

mutual
/-- Captured outputs of the failing leaf commands, in tree order. -/
def TaskTree.failOutputs : TaskTree → List String
  | .leaf code out => if code = 0 then [] else [out]
  | .node cs => cs.failOutputs

def TaskForest.failOutputs : TaskForest → List String
  | .nil => []
  | .cons _ t rest => t.failOutputs ++ rest.failOutputs
end

/-- `TaskList.add` (app.py lines 143-146): reject a name already bound,
otherwise bind it last (dict insertion order). -/
def TaskList.add (tasks : List (String × τ)) (name : String) (task : τ) :
    Except AppError (List (String × τ)) :=
  if name ∈ tasks.map Prod.fst then .error (.duplicateNameError name)
  else .ok (tasks ++ [(name, task)])

/-! ### `Command` lifecycle (app.py lines 163-177)

`run()` submits the command to the shared executor exactly once and stores
the future; `result()` merely reads the stored future, whose value is fixed
once the command completed.  The state records the stored future (if any) and
how many submissions were made on behalf of this command. -/

structure CmdState where
  cmd : Cmd
  task : Option (Except AppError String)
  submitCount : Nat

/-- `Command.run`: submit and store the future. -/
def Command.runS (w : World) (s : CmdState) : CmdState :=
  { s with task := some (runWorld w s.cmd.args), submitCount := s.submitCount + 1 }

/-- `Command.result`: read the stored future; no further submission happens.
`none` models the `AttributeError` of calling `result()` before `run()`. -/
def Command.resultS (s : CmdState) : Option (Except AppError String) × CmdState :=
  (s.task, s)

/-! ### Docker (app.py lines 239-313) -/

/-- Argv of `DockerPs.quiet('--all')`. -/
def dockerPsQuietAllArgs : List String := ["docker", "ps", "--quiet", "--all"]

/-- `DockerPs.get_all_ids`: run `docker ps --quiet --all`, split lines. -/
def get_all_ids (w : World) : Except AppError (List String) :=
  (runWorld w dockerPsQuietAllArgs).map pySplitlines

/-- The Go template of `DockerInspect.FORMAT` (braces written as escapes). -/
def dockerInspectFormat : String := "\x7b\x7bprintf \"%s%c\" (json .) 0\x7d\x7d"

/-- Argv of `DockerInspect(*containers)`. -/
def dockerInspectArgs (containers : List String) : List String :=
  ["docker", "inspect", "--format=" ++ dockerInspectFormat] ++ containers

/-- Argv of `DockerVersion()`. -/
def dockerVersionArgs : List String := ["docker", "version"]

/-- `DockerVersion.is_daemon_running`: any failure of `docker version` means
`False`, success means `True`. -/
def is_daemon_running (w : World) : Bool :=
  match runWorld w dockerVersionArgs with
  | .ok _ => true
  | .error _ => false

/-- The NUL separator of the inspect format. -/
def nulChar : Char := Char.ofNat 0

/-- `DockerStatus.run`: with no containers the inspect call is skipped; the
value returned is the argv submitted to the executor, if any. -/
def DockerStatus.run (containers : List String) : Option (List String) :=
  if containers = [] then none else some (dockerInspectArgs containers)

/-- `DockerStatus.result`: with no containers, the empty list without
touching the inspect call; otherwise split the inspect output on NUL, keep
the chunks that are non-blank, and decode each (the `json.loads` plus
`filter_info` projection of a chunk is the collaborator `loads`). -/
def DockerStatus.result (containers : List String) (w : World)
    (loads : String → Except AppError α) : Except AppError (List α) :=
  if containers = [] then .ok []
  else do
    let text ← runWorld w (dockerInspectArgs containers)
    let chunks := (split_by text.data nulChar).map String.mk
    exceptMapM loads (chunks.filter (fun c => !(c.trim == "")))

/-! ### `SystemStatus` and `UserStatusList` (app.py lines 355-405) -/

/-- A child of an `InstanceStatus` composite: a plain command task, or the
`DockerStatus` task (carrying its container-id list). -/
inductive SysChild where
  | cmd (args : List String)
  | dockerStatus (containers : List String)
deriving DecidableEq, Repr

/-- The four fixed children of `InstanceStatus`, in insertion order. -/
def instanceStatusTasks (systemctl journalctl : List String → List String) :
    List (String × SysChild) :=
  [("overview", .cmd (systemctl ["status"])),
   ("failed", .cmd (systemctl ["list-units", "--failed"])),
   ("timers", .cmd (systemctl ["list-timers", "--all"])),
   ("journal", .cmd (journalctl ["-b", "--lines=20"]))]

/-- `SystemStatus.__init__`: the four system-scope children; if the docker
daemon probe succeeds, additionally construct `DockerStatus()` (whose
constructor lists the container ids and may itself fail) and `add` it under
`docker`. -/
def mkSystemStatus (w : World) : Except AppError (List (String × SysChild)) :=
  let base := instanceStatusTasks systemctlSystemArgs journalctlSystemArgs
  if is_daemon_running w then do
    let ids ← get_all_ids w
    TaskList.add base "docker" (.dockerStatus ids)
  else .ok base

/-- A child of the `user` composite: the caller's own (direct) `UserStatus()`
or an impersonated `UserStatus.su(user)`. -/
inductive UserChild where
  | direct
  | impersonated (u : SystemdUser)
deriving DecidableEq, Repr

/-- `UserStatusList.__init__`: as root (or nobody), one impersonated entry
per systemd user, keyed by name; otherwise the caller's own entry, and only
when its per-user instance is active. -/
def mkUserStatusList (euid : Int) (pwAll : List User) (sdUsers : List SystemdUser)
    (current : User) (w : World) : List (String × UserChild) :=
  if running_as_root euid pwAll then sdUsers.map (fun u => (u.name, .impersonated u))
  else if user_instance_active w current then [(current.name, .direct)]
  else []

/-! ## Claims -/

/-- Claim C9: adding a child under a name already bound in a `TaskList` fails
with the duplicate-name error (leaving the mapping untouched, as the error is
raised before any binding), while adding under a fresh name appends the
binding. -/
theorem taskList_add_unique (τ : Type) (tasks : List (String × τ)) (name : String) (task : τ) :
    (name ∈ tasks.map Prod.fst →
      TaskList.add tasks name task = .error (.duplicateNameError name)) ∧
    (name ∉ tasks.map Prod.fst →
      TaskList.add tasks name task = .ok (tasks ++ [(name, task)])) := by
  constructor <;> intro h <;> simp [TaskList.add, h]

/-- Witness for C9 at a concrete composite. -/
theorem taskList_add_unique_witness :
    (TaskList.add [("a", (0 : Nat))] "a" 1 = .error (.duplicateNameError "a")) ∧
    (TaskList.add [("a", (0 : Nat))] "b" 1 = .ok [("a", 0), ("b", 1)]) :=
  ⟨(taskList_add_unique Nat [("a", 0)] "a" 1).1 (by decide),
   (taskList_add_unique Nat [("a", 0)] "b" 1).2 (by decide)⟩

/-- Claim C8: on a completed leaf command, `result()` returns the stored
future's value, calling it again returns the identical value, no further
executor submission happens, and each `run()` performs exactly one
submission. -/
theorem command_result_idempotent (s : CmdState) (fut : Except AppError String)
    (h : s.task = some fut) :
    Command.resultS s = (some fut, s) ∧
    (Command.resultS (Command.resultS s).2).1 = (Command.resultS s).1 ∧
    (Command.resultS (Command.resultS s).2).2.submitCount = s.submitCount ∧
    (∀ (w : World) (s0 : CmdState), (Command.runS w s0).submitCount = s0.submitCount + 1) := by
  refine ⟨?_, rfl, rfl, fun w s0 => rfl⟩
  simp [Command.resultS, h]

/-- Witness for C8 at a concrete completed command state. -/
theorem command_result_idempotent_witness :
    Command.resultS ⟨⟨["top"], fun _ => none⟩, some (.ok "out"), 1⟩ =
      (some (.ok "out"), ⟨⟨["top"], fun _ => none⟩, some (.ok "out"), 1⟩) ∧
    (Command.resultS (Command.resultS ⟨⟨["top"], fun _ => none⟩, some (.ok "out"), 1⟩).2).1 =
      (Command.resultS ⟨⟨["top"], fun _ => none⟩, some (.ok "out"), 1⟩).1 ∧
    (Command.resultS (Command.resultS ⟨⟨["top"], fun _ => none⟩, some (.ok "out"), 1⟩).2).2.submitCount = 1 ∧
    (∀ (w : World) (s0 : CmdState), (Command.runS w s0).submitCount = s0.submitCount + 1) :=
  command_result_idempotent ⟨⟨["top"], fun _ => none⟩, some (.ok "out"), 1⟩ (.ok "out") rfl

/-- Claim C6: with an empty container-id list, `DockerStatus` submits no
inspect command and `result()` is the empty sequence, for every world and
every JSON decoder. -/
theorem dockerStatus_empty_short_circuit {α : Type} (w : World)
    (loads : String → Except AppError α) :
    DockerStatus.run [] = none ∧ DockerStatus.result [] w loads = .ok [] :=
  ⟨rfl, rfl⟩

/-- Claim C7: a successfully constructed `SystemStatus` composite has the
`docker` child exactly when the `docker version` probe exited zero, and a
failing probe yields the four base children with no error. -/
theorem systemStatus_docker_key (w : World) :
    (∀ tasks, mkSystemStatus w = .ok tasks →
      (("docker" ∈ tasks.map Prod.fst) ↔ (w dockerVersionArgs).1 = 0)) ∧
    ((w dockerVersionArgs).1 ≠ 0 →
      mkSystemStatus w = .ok (instanceStatusTasks systemctlSystemArgs journalctlSystemArgs) ∧
      "docker" ∉ (instanceStatusTasks systemctlSystemArgs journalctlSystemArgs).map Prod.fst) := by
  by_cases hv : (w dockerVersionArgs).1 = 0
  · refine ⟨?_, fun hne => absurd hv hne⟩
    intro tasks htasks
    simp only [mkSystemStatus, is_daemon_running, runWorld, run_do, hv, if_pos] at htasks
    by_cases hps : (w dockerPsQuietAllArgs).1 = 0
    · simp only [get_all_ids, runWorld, run_do, hps, if_pos, Except.map, bind, Except.bind,
        TaskList.add, instanceStatusTasks] at htasks
      simp at htasks
      subst htasks
      simp [instanceStatusTasks, hv]
    · simp [get_all_ids, runWorld, run_do, hps, bind, Except.bind, Except.map] at htasks
  · refine ⟨?_, fun _ => ⟨?_, by decide⟩⟩
    · intro tasks htasks
      simp only [mkSystemStatus, is_daemon_running, runWorld, run_do, hv, if_neg] at htasks
      simp at htasks
      subst htasks
      simp [instanceStatusTasks, hv]
    · simp [mkSystemStatus, is_daemon_running, runWorld, run_do, hv]

/-- Witness for C7: a world whose probes all succeed (adding the `docker`
child for an empty container list), and one whose probes all fail. -/
theorem systemStatus_docker_key_witness :
    ("docker" ∈ (instanceStatusTasks systemctlSystemArgs journalctlSystemArgs ++
        [("docker", SysChild.dockerStatus [])]).map Prod.fst ↔
      ((fun _ => ((0 : Int), "")) dockerVersionArgs).1 = 0) ∧
    (mkSystemStatus (fun _ => ((1 : Int), "")) =
        .ok (instanceStatusTasks systemctlSystemArgs journalctlSystemArgs) ∧
      "docker" ∉ (instanceStatusTasks systemctlSystemArgs journalctlSystemArgs).map Prod.fst) :=
  ⟨(systemStatus_docker_key (fun _ => ((0 : Int), ""))).1
      (instanceStatusTasks systemctlSystemArgs journalctlSystemArgs ++
        [("docker", SysChild.dockerStatus [])]) (by rfl),
   (systemStatus_docker_key (fun _ => ((1 : Int), ""))).2 (by decide)⟩

/-- Claim C5: for an unprivileged caller the `user` composite holds exactly
the caller's own direct entry when the is-active probe exits zero, and is
empty (with the non-zero exit consumed, not propagated) otherwise. -/
theorem userStatusList_nonroot (euid : Int) (pwAll : List User) (sdUsers : List SystemdUser)
    (current : User) (w : World) (hroot : running_as_root euid pwAll = false) :
    (mkUserStatusList euid pwAll sdUsers current w = [(current.name, .direct)] ↔
      (w (isActiveArgs current)).1 = 0) ∧
    ((w (isActiveArgs current)).1 ≠ 0 → mkUserStatusList euid pwAll sdUsers current w = []) := by
  by_cases hv : (w (isActiveArgs current)).1 = 0 <;>
    simp [mkUserStatusList, user_instance_active, runWorld, run_do, hroot, hv]

/-- Witness for C5 at a concrete unprivileged caller with an active probe. -/
theorem userStatusList_nonroot_witness :
    (mkUserStatusList 1000 [] [] ⟨1000, "alice"⟩ (fun _ => ((0 : Int), "")) =
        [("alice", UserChild.direct)] ↔
      ((fun _ => ((0 : Int), "")) (isActiveArgs ⟨1000, "alice"⟩)).1 = 0) ∧
    (((fun _ => ((0 : Int), "")) (isActiveArgs ⟨1000, "alice"⟩)).1 ≠ 0 →
      mkUserStatusList 1000 [] [] ⟨1000, "alice"⟩ (fun _ => ((0 : Int), "")) = []) :=
  userStatusList_nonroot 1000 [] [] ⟨1000, "alice"⟩ (fun _ => ((0 : Int), "")) (by decide)

/-! ### Properties of `split_by` -/

theorem splitByAux_length [DecidableEq α] (sep : α) (xs : List α) :
    ∀ g, (splitByAux sep g xs).length = xs.count sep + 1 := by
  induction xs with
  | nil => intro g; simp [splitByAux]
  | cons x xs ih =>
      intro g
      by_cases hx : x = sep
      · simp [splitByAux, hx, ih, List.count_cons]
      · simp [splitByAux, hx, ih, List.count_cons]

theorem splitByAux_ne_nil [DecidableEq α] (sep : α) (xs : List α) (g : List α) :
    splitByAux sep g xs ≠ [] := by
  intro h
  have := splitByAux_length sep xs g
  simp [h] at this

theorem splitByAux_not_mem [DecidableEq α] (sep : α) (xs : List α) :
    ∀ g, sep ∉ g → ∀ t ∈ splitByAux sep g xs, sep ∉ t := by
  induction xs with
  | nil => intro g hg t ht; simp [splitByAux] at ht; simpa [ht] using hg
  | cons x xs ih =>
      intro g hg t ht
      by_cases hx : x = sep
      · simp [splitByAux, hx] at ht
        rcases ht with rfl | ht
        · exact hg
        · exact ih [] (by simp) t ht
      · simp [splitByAux, hx] at ht
        refine ih (g ++ [x]) ?_ t ht
        simp [hg]
        intro hc
        exact hx hc.symm

theorem joinSep_cons (sep : α) (g : List α) (gs : List (List α)) (h : gs ≠ []) :
    joinSep sep (g :: gs) = g ++ sep :: joinSep sep gs := by
  cases gs with
  | nil => exact absurd rfl h
  | cons g2 gs2 => rfl

theorem splitByAux_joinSep [DecidableEq α] (sep : α) (xs : List α) :
    ∀ g, joinSep sep (splitByAux sep g xs) = g ++ xs := by
  induction xs with
  | nil => intro g; simp [splitByAux, joinSep]
  | cons x xs ih =>
      intro g
      by_cases hx : x = sep
      · rw [splitByAux, if_pos hx, joinSep_cons sep g _ (splitByAux_ne_nil sep xs []), ih []]
        simp [hx]
      · rw [splitByAux, if_neg hx, ih (g ++ [x])]
        simp

theorem splitByAux_concat_sep [DecidableEq α] (sep : α) (ys : List α) :
    ∀ g, splitByAux sep g (ys ++ [sep]) = splitByAux sep g ys ++ [[]] := by
  induction ys with
  | nil => intro g; simp [splitByAux]
  | cons y ys ih =>
      intro g
      by_cases hy : y = sep <;> simp [splitByAux, hy, ih]

/-- Claim C10: `split_by` yields exactly `count sep + 1` groups, none of
which contains the separator; interleaving the groups with the separator
reconstructs the input; there is always at least one group, a trailing
separator yields a trailing empty group, and the empty group is rejected by
the downstream `show-user` block parser with the parse error. -/
theorem split_by_spec {α : Type} [DecidableEq α] (xs ys : List α) (sep : α) :
    (split_by xs sep).length = xs.count sep + 1 ∧
    (∀ g ∈ split_by xs sep, sep ∉ g) ∧
    joinSep sep (split_by xs sep) = xs ∧
    0 < (split_by xs sep).length ∧
    (split_by (ys ++ [sep]) sep).getLast? = some [] ∧
    (∀ raw : String, parseGroup raw [] = .error (.parseError raw)) := by
  refine ⟨splitByAux_length sep xs [], splitByAux_not_mem sep xs [] (by simp),
    by simpa using splitByAux_joinSep sep xs [], ?_, ?_, fun raw => rfl⟩
  · rw [split_by, splitByAux_length sep xs []]; omega
  · rw [split_by, splitByAux_concat_sep sep ys []]
    exact List.getLast?_concat _

/-- Witness for C10 at a concrete line list with an embedded and a trailing
separator. -/
theorem split_by_spec_witness :
    (split_by ["a", "b", "", "c"] "").length = (["a", "b", "", "c"].count "") + 1 ∧
    (∀ g ∈ split_by ["a", "b", "", "c"] "", "" ∉ g) ∧
    joinSep "" (split_by ["a", "b", "", "c"] "") = ["a", "b", "", "c"] ∧
    0 < (split_by ["a", "b", "", "c"] "").length ∧
    (split_by (["x"] ++ [""]) "").getLast? = some [] ∧
    (∀ raw : String, parseGroup raw [] = .error (.parseError raw)) :=
  split_by_spec ["a", "b", "", "c"] ["x"] ""

/-- Claim C2, counterexample to the parenthesised equality: for the runtime
directory `/run/user/1001/` (trailing slash) the bus address is built with
`os.path.join`, which inserts no second slash, so it differs from
`unix:path=` ++ R ++ `/bus`. -/
theorem fix_su_env_trailing_slash_counterexample :
    fix_su_env ⟨1001, "alice", "/run/user/1001/"⟩ (fun _ => none) "DBUS_SESSION_BUS_ADDRESS" =
      some "unix:path=/run/user/1001/bus" ∧
    some "unix:path=/run/user/1001/bus" ≠
      some ("unix:path=" ++ "/run/user/1001/" ++ "/bus") := by
  constructor
  · decide
  · decide

/-- Claim C2 (amended): the wrapped command's environment is the inner one
with `XDG_RUNTIME_DIR` overwritten to the runtime directory and the bus
address overwritten to `unix:path=` plus `os.path.join(R, "bus")`, all other
keys untouched; the join equals `R ++ "/bus"` whenever `R` is non-empty and
has no trailing slash. -/
theorem fix_su_env_overrides (user : SystemdUser) (cmd : Cmd) :
    (Systemd.su user cmd).env = fix_su_env user cmd.env ∧
    fix_su_env user cmd.env "XDG_RUNTIME_DIR" = some user.runtime_dir ∧
    fix_su_env user cmd.env "DBUS_SESSION_BUS_ADDRESS" =
      some ("unix:path=" ++ osPathJoin user.runtime_dir "bus") ∧
    (∀ k, k ≠ "XDG_RUNTIME_DIR" → k ≠ "DBUS_SESSION_BUS_ADDRESS" →
      fix_su_env user cmd.env k = cmd.env k) ∧
    (user.runtime_dir ≠ "" → endsWithSlash user.runtime_dir = false →
      osPathJoin user.runtime_dir "bus" = user.runtime_dir ++ "/bus") := by
  refine ⟨rfl, ?_, ?_, ?_, ?_⟩
  · simp [fix_su_env, envSet]
  · simp [fix_su_env, envSet]
  · intro k h1 h2
    simp [fix_su_env, envSet, h1, h2]
  · intro h1 h2
    rw [osPathJoin, if_neg (by decide), if_neg (by simp [h1, h2])]
    rw [String.append_assoc]
    rw [show ("/" : String) ++ "bus" = "/bus" from by decide]

/-- Witness for C2 at the principal of the spec's example. -/
theorem fix_su_env_overrides_witness :
    fix_su_env ⟨1001, "alice", "/run/user/1001"⟩ (fun _ => none) "XDG_RUNTIME_DIR" =
      some "/run/user/1001" ∧
    fix_su_env ⟨1001, "alice", "/run/user/1001"⟩ (fun _ => none) "DBUS_SESSION_BUS_ADDRESS" =
      some "unix:path=/run/user/1001/bus" ∧
    fix_su_env ⟨1001, "alice", "/run/user/1001"⟩ (fun _ => none) "HOME" = none ∧
    osPathJoin "/run/user/1001" "bus" = "/run/user/1001" ++ "/bus" := by
  have h := fix_su_env_overrides ⟨1001, "alice", "/run/user/1001"⟩ ⟨["systemctl"], fun _ => none⟩
  refine ⟨h.2.1, ?_, ?_, h.2.2.2.2 (by decide) (by decide)⟩
  · rw [h.2.2.1, h.2.2.2.2 (by decide) (by decide)]
    decide
  · exact h.2.2.2.1 "HOME" (by decide) (by decide)

mutual
/-- Mutual workhorse: a tree with a failing leaf fails with that leaf's
output; a tree with no failing leaf produces a Report. -/
theorem taskTree_result_spec : ∀ t : TaskTree,
    (t.hasFailing = true →
      ∃ out, out ∈ t.failOutputs ∧ t.result = .error (.commandExecutionError out)) ∧
    (t.hasFailing = false → ∃ r, t.result = .ok r)
  | .leaf code outp => by
      constructor <;> intro h <;>
        simp [TaskTree.hasFailing, decide_eq_true_eq] at h <;>
        simp [TaskTree.failOutputs, TaskTree.result, run_do, h, Except.map]
  | .node cs => by
      have H := taskForest_result_spec cs
      constructor <;> intro h
      · obtain ⟨out, hm, he⟩ := H.1 (by simpa [TaskTree.hasFailing] using h)
        exact ⟨out, by simpa [TaskTree.failOutputs] using hm,
          by simp [TaskTree.result, he, Except.map]⟩
      · obtain ⟨r, he⟩ := H.2 (by simpa [TaskTree.hasFailing] using h)
        exact ⟨.dict r, by simp [TaskTree.result, he, Except.map]⟩

theorem taskForest_result_spec : ∀ f : TaskForest,
    (f.hasFailing = true →
      ∃ out, out ∈ f.failOutputs ∧ TaskForest.result f = .error (.commandExecutionError out)) ∧
    (f.hasFailing = false → ∃ rs, TaskForest.result f = .ok rs)
  | .nil => by
      constructor <;> intro h
      · simp [TaskForest.hasFailing] at h
      · exact ⟨[], rfl⟩
  | .cons n t rest => by
      have Ht := taskTree_result_spec t
      have Hr := taskForest_result_spec rest
      constructor <;> intro h
      · by_cases ht : t.hasFailing = true
        · obtain ⟨out, hm, he⟩ := Ht.1 ht
          exact ⟨out, by simp [TaskForest.failOutputs, hm],
            by simp [TaskForest.result, he, bind, Except.bind]⟩
        · have htf : t.hasFailing = false := by simpa using ht
          have hrf : rest.hasFailing = true := by
            simp [TaskForest.hasFailing, htf] at h
            exact h
          obtain ⟨r, hok⟩ := Ht.2 htf
          obtain ⟨out, hm, he⟩ := Hr.1 hrf
          exact ⟨out, by simp [TaskForest.failOutputs, hm],
            by simp [TaskForest.result, hok, he, bind, Except.bind]⟩
      · have hb : t.hasFailing = false ∧ rest.hasFailing = false := by
          constructor <;> [skip; skip] <;> simp [TaskForest.hasFailing] at h <;> tauto
        obtain ⟨r, hok⟩ := Ht.2 hb.1
        obtain ⟨rs, hoks⟩ := Hr.2 hb.2
        exact ⟨(n, r) :: rs, by simp [TaskForest.result, hok, hoks, bind, Except.bind]⟩
end

/-- Claim C4: whenever some leaf command of a completed task tree exited
non-zero, the top-level `complete()` (and hence `result()`) fails with the
command-execution error carrying one failing command's captured output, and
no Report value is produced. -/
theorem taskTree_failure_propagation (t : TaskTree) (h : t.hasFailing = true) :
    ∃ out, out ∈ t.failOutputs ∧ t.complete = .error (.commandExecutionError out) ∧
      (∀ r : Report, t.complete ≠ .ok r) := by
  obtain ⟨out, hm, he⟩ := (taskTree_result_spec t).1 h
  refine ⟨out, hm, he, fun r hr => ?_⟩
  have hc : t.complete = t.result := rfl
  rw [hc, he] at hr
  exact absurd hr (by simp)

/-- A completed system-instance tree whose `failed` sub-command exited 1. -/
def exampleSystemTree : TaskTree :=
  .node (.cons "overview" (.leaf 0 "ok")
    (.cons "failed" (.leaf 1 "boom")
      (.cons "timers" (.leaf 0 "timers ok")
        (.cons "journal" (.leaf 0 "journal ok") .nil))))

/-- Witness for C4 at a system-instance tree whose failed-units command
exited 1. -/
theorem taskTree_failure_propagation_witness :
    exampleSystemTree.hasFailing = true ∧
    exampleSystemTree.complete = .error (.commandExecutionError "boom") := by
  refine ⟨rfl, ?_⟩
  obtain ⟨out, hm, he, _⟩ := taskTree_failure_propagation exampleSystemTree rfl
  have hout : out = "boom" := by
    have : exampleSystemTree.failOutputs = ["boom"] := rfl
    rw [this] at hm
    simpa using hm
  rw [hout] at he
  exact he

/-! ### Claim C1: parsing of the two chained loginctl calls -/

theorem strData_append (a b : String) : (a ++ b).data = a.data ++ b.data := rfl

theorem strMk_data (s : String) : String.mk s.data = s := by
  cases s
  rfl

theorem exceptMapM_ok_of_forall {β γ : Type} {f : β → Except AppError γ} :
    ∀ {bs : List β}, (∀ b ∈ bs, ∃ c, f b = .ok c) →
    ∃ cs, exceptMapM f bs = .ok cs ∧ cs.length = bs.length := by
  intro bs
  induction bs with
  | nil => intro h; exact ⟨[], rfl, rfl⟩
  | cons b bs ih =>
      intro h
      obtain ⟨c, hc⟩ := h b (by simp)
      obtain ⟨cs, hcs, hlen⟩ := ih (fun x hx => h x (by simp [hx]))
      exact ⟨c :: cs, by simp [exceptMapM, hc, hcs, bind, Except.bind], by simp [hlen]⟩

theorem exceptMapM_map_of {β δ γ : Type} {f : β → Except AppError γ} {m : δ → β} {g : δ → γ} :
    ∀ {ds : List δ}, (∀ d ∈ ds, f (m d) = .ok (g d)) →
    exceptMapM f (ds.map m) = .ok (ds.map g) := by
  intro ds
  induction ds with
  | nil => intro h; rfl
  | cons d ds ih =>
      intro h
      have hd := h d (by simp)
      have ht := ih (fun x hx => h x (by simp [hx]))
      simp [exceptMapM, hd, ht, bind, Except.bind]

theorem pySplitAux_ne_nil (sep : Char) :
    ∀ (xs cur : List Char) (n : Nat), pySplitAux sep cur n xs ≠ [] := by
  intro xs
  induction xs with
  | nil => intro cur n; cases n <;> simp [pySplitAux]
  | cons x xs ih =>
      intro cur n
      cases n with
      | zero => simp [pySplitAux]
      | succ n =>
          by_cases hx : x = sep <;> simp [pySplitAux, hx, ih]

theorem pySplitAux_first (sep : Char) (rest : List Char) :
    ∀ (xs : List Char), sep ∉ xs →
    ∀ (cur : List Char) (n : Nat),
      pySplitAux sep cur (n + 1) (xs ++ sep :: rest) = (cur ++ xs) :: pySplitAux sep [] n rest := by
  intro xs
  induction xs with
  | nil => intro _ cur n; simp [pySplitAux]
  | cons x xs ih =>
      intro h cur n
      have hx : x ≠ sep := fun hc => h (by simp [hc])
      have h2 : sep ∉ xs := fun hc => h (by simp [hc])
      calc pySplitAux sep cur (n + 1) ((x :: xs) ++ sep :: rest)
          = pySplitAux sep (cur ++ [x]) (n + 1) (xs ++ sep :: rest) := by
            rw [List.cons_append, pySplitAux, if_neg hx]
        _ = ((cur ++ [x]) ++ xs) :: pySplitAux sep [] n rest := ih h2 (cur ++ [x]) n
        _ = (cur ++ x :: xs) :: pySplitAux sep [] n rest := by simp

theorem splitByAux_no_sep [DecidableEq α] (sep : α) :
    ∀ (xs : List α), sep ∉ xs → ∀ g, splitByAux sep g xs = [g ++ xs] := by
  intro xs
  induction xs with
  | nil => intro _ g; simp [splitByAux]
  | cons x xs ih =>
      intro h g
      have hx : x ≠ sep := fun hc => h (by simp [hc])
      have h2 : sep ∉ xs := fun hc => h (by simp [hc])
      rw [splitByAux, if_neg hx, ih h2 (g ++ [x])]
      simp

theorem splitByAux_chunk [DecidableEq α] (sep : α) (rest : List α) :
    ∀ (xs : List α), sep ∉ xs →
    ∀ g, splitByAux sep g (xs ++ sep :: rest) = (g ++ xs) :: splitByAux sep [] rest := by
  intro xs
  induction xs with
  | nil => intro _ g; simp [splitByAux]
  | cons x xs ih =>
      intro h g
      have hx : x ≠ sep := fun hc => h (by simp [hc])
      have h2 : sep ∉ xs := fun hc => h (by simp [hc])
      rw [List.cons_append, splitByAux, if_neg hx, ih h2 (g ++ [x])]
      simp

theorem split_by_joinSep [DecidableEq α] (sep : α) :
    ∀ (gs : List (List α)), gs ≠ [] → (∀ g ∈ gs, sep ∉ g) →
    split_by (joinSep sep gs) sep = gs := by
  intro gs
  induction gs with
  | nil => intro h _; exact absurd rfl h
  | cons g gs ih =>
      intro _ h
      cases gs with
      | nil =>
          rw [joinSep, split_by, splitByAux_no_sep sep g (h g (by simp)) []]
          rfl
      | cons g2 gs2 =>
          rw [joinSep_cons sep g (g2 :: gs2) (by simp), split_by,
            splitByAux_chunk sep (joinSep sep (g2 :: gs2)) g (h g (by simp)) []]
          have := ih (by simp) (fun x hx => h x (by simp [hx]))
          rw [split_by] at this
          rw [this]
          rfl

theorem parseUserLine_ok (raw uid nm : String) (hne : uid ≠ "")
    (hws : ∀ c ∈ uid.data, c.isWhitespace = false) :
    ∃ u, parseUserLine raw (uid ++ " " ++ nm) = .ok u := by
  have hdata : (uid ++ " " ++ nm).data = uid.data ++ ' ' :: nm.data := by
    rw [strData_append, strData_append, show (" " : String).data = [' '] from rfl,
      List.append_assoc]
    rfl
  have hsp : ' ' ∉ uid.data := fun hc => by simpa using hws ' ' hc
  have hlstrip : pyLstrip (uid ++ " " ++ nm) = uid ++ " " ++ nm := by
    rw [pyLstrip, hdata]
    cases hd : uid.data with
    | nil =>
        exact absurd (by rw [← strMk_data uid, hd]) hne
    | cons c t =>
        have hc : c.isWhitespace = false := hws c (by rw [hd]; simp)
        rw [List.cons_append, List.dropWhile_cons_of_neg (by simp [hc]), ← List.cons_append,
          ← hd, ← hdata, strMk_data]
  have haux : pySplitAux ' ' [] 2 ((uid ++ " " ++ nm)).data =
      uid.data :: pySplitAux ' ' [] 1 nm.data := by
    rw [hdata]
    simpa using pySplitAux_first ' ' nm.data uid.data hsp [] 1
  have hinfo : pySplit ' ' 2 (pyLstrip (uid ++ " " ++ nm)) =
      uid :: (pySplitAux ' ' [] 1 nm.data).map String.mk := by
    rw [hlstrip, pySplit, haux]
    simp [strMk_data]
  cases hr : (pySplitAux ' ' [] 1 nm.data).map String.mk with
  | nil =>
      exact absurd (List.map_eq_nil_iff.mp hr) (pySplitAux_ne_nil ' ' nm.data [] 1)
  | cons r rs =>
      exact ⟨⟨uid, r⟩, by simp [parseUserLine, hinfo, hr]⟩

theorem list_users_ok (out : String) (accounts : List (String × String))
    (h1 : pySplitlines out = accounts.map (fun a => a.1 ++ " " ++ a.2))
    (h2 : ∀ a ∈ accounts, a.1 ≠ "" ∧ ∀ c ∈ a.1.data, c.isWhitespace = false) :
    ∃ us, list_users out = .ok us ∧ us.length = accounts.length := by
  rw [list_users, h1]
  have hall : ∀ line ∈ accounts.map (fun a => a.1 ++ " " ++ a.2),
      ∃ u, parseUserLine out line = .ok u := by
    intro line hline
    obtain ⟨a, ha, rfl⟩ := List.mem_map.mp hline
    exact parseUserLine_ok out a.1 a.2 (h2 a ha).1 (h2 a ha).2
  obtain ⟨us, hus, hlen⟩ := exceptMapM_ok_of_forall hall
  exact ⟨us, hus, by simpa using hlen⟩

theorem parseGroup_ok (raw l0 l1 l2 : String) (u : Int) (hu : pyIntE l0 = .ok u) :
    parseGroup raw [l0, l1, l2] = .ok ⟨u, l1, l2⟩ := by
  simp [parseGroup, loginctlProperties, hu, bind, Except.bind]

theorem show_users_ok (so : String) (us : List LoginUser) (hus : us ≠ [])
    (blocks : List ((String × String × String) × Int))
    (hso : pySplitlines so = joinSep "" (blocks.map (fun p => [p.1.1, p.1.2.1, p.1.2.2])))
    (hblocks : blocks ≠ [])
    (hnb : ∀ p ∈ blocks, p.1.1 ≠ "" ∧ p.1.2.1 ≠ "" ∧ p.1.2.2 ≠ "")
    (hint : ∀ p ∈ blocks, pyIntE p.1.1 = .ok p.2) :
    show_users us so = .ok (blocks.map (fun p => (⟨p.2, p.1.2.1, p.1.2.2⟩ : SystemdUser))) := by
  have hisem : (us.map (·.name)).isEmpty = false := by
    cases us with
    | nil => exact absurd rfl hus
    | cons u t => rfl
  rw [show_users]
  simp only [hisem, Bool.false_eq_true, if_false]
  rw [hso, split_by_joinSep "" (blocks.map (fun p => [p.1.1, p.1.2.1, p.1.2.2]))
    (by simpa using hblocks) ?groups]
  case groups =>
    intro g hg
    obtain ⟨p, hp, rfl⟩ := List.mem_map.mp hg
    have hb := hnb p hp
    intro hmem
    simp only [List.mem_cons, List.not_mem_nil, or_false] at hmem
    rcases hmem with h | h | h
    · exact hb.1 h.symm
    · exact hb.2.1 h.symm
    · exact hb.2.2 h.symm
  exact exceptMapM_map_of (fun p hp => parseGroup_ok so p.1.1 p.1.2.1 p.1.2.2 p.2 (hint p hp))

theorem exceptMapM_parseGroup_err (raw : String) :
    ∀ gs : List (List String), (∃ g ∈ gs, g.length ≠ 3) →
    (∃ e, exceptMapM (parseGroup raw) gs = .error e) ∧
    ((∀ g ∈ gs, g.length = 3 → (pyIntE (g.headD "")).isOk = true) →
      exceptMapM (parseGroup raw) gs = .error (.parseError raw)) := by
  intro gs
  induction gs with
  | nil => intro hex; simp at hex
  | cons g t ih =>
      intro hex
      by_cases hlen : g.length = 3
      · have hex2 : ∃ g2 ∈ t, g2.length ≠ 3 := by
          rcases hex with ⟨g2, hg2, hne⟩
          rcases List.mem_cons.mp hg2 with hh | hht
          · exact absurd (hh ▸ hlen) hne
          · exact ⟨g2, hht, hne⟩
        constructor
        · cases hpi : pyIntE (g.headD "") with
          | error e =>
              rw [List.headD_eq_head?] at hpi
              exact ⟨e, by simp [exceptMapM, parseGroup, loginctlProperties, hlen, hpi,
                bind, Except.bind]⟩
          | ok u =>
              rw [List.headD_eq_head?] at hpi
              obtain ⟨e, he⟩ := (ih hex2).1
              exact ⟨e, by simp [exceptMapM, parseGroup, loginctlProperties, hlen, hpi, he,
                bind, Except.bind]⟩
        · intro hall
          have hgok := hall g (by simp) hlen
          cases hpi : pyIntE (g.headD "") with
          | error e => rw [hpi] at hgok; simp [Except.isOk, Except.toBool] at hgok
          | ok u =>
              rw [List.headD_eq_head?] at hpi
              have hrec := (ih hex2).2 (fun x hx hl => hall x (by simp [hx]) hl)
              simp [exceptMapM, parseGroup, loginctlProperties, hlen, hpi, hrec,
                bind, Except.bind]
      · constructor
        · exact ⟨.parseError raw, by simp [exceptMapM, parseGroup, loginctlProperties, hlen,
            bind, Except.bind]⟩
        · intro _
          simp [exceptMapM, parseGroup, loginctlProperties, hlen, bind, Except.bind]

/-- Claim C1 (amended): for a well-formed two-column listing and a matching
sequence of three-line property blocks (non-empty lines, integer uid line),
`systemd_users` yields one `SystemdUser` per account, in block order, with
uid, name and runtime path taken from the blocks; and when the show-user
output (issued after a successful non-empty listing) contains a block whose
line count is not 3, the call fails -- with the `ParseError` carrying the raw
show-user output provided every three-line group's uid line is accepted by
`int()`, the amendment forced by the counterexample below. -/
theorem systemd_users_parse :
    (∀ (lo so : String) (accounts : List (String × String))
        (blocks : List ((String × String × String) × Int)),
      pySplitlines lo = accounts.map (fun a => a.1 ++ " " ++ a.2) →
      (∀ a ∈ accounts, a.1 ≠ "" ∧ ∀ c ∈ a.1.data, c.isWhitespace = false) →
      blocks.length = accounts.length →
      pySplitlines so = joinSep "" (blocks.map (fun p => [p.1.1, p.1.2.1, p.1.2.2])) →
      (∀ p ∈ blocks, p.1.1 ≠ "" ∧ p.1.2.1 ≠ "" ∧ p.1.2.2 ≠ "") →
      (∀ p ∈ blocks, pyIntE p.1.1 = .ok p.2) →
      systemd_users lo so = .ok (blocks.map (fun p => (⟨p.2, p.1.2.1, p.1.2.2⟩ : SystemdUser))) ∧
        (blocks.map (fun p => (⟨p.2, p.1.2.1, p.1.2.2⟩ : SystemdUser))).length =
          accounts.length) ∧
    (∀ (lo so : String) (us : List LoginUser),
      list_users lo = .ok us → us ≠ [] →
      (∃ g ∈ split_by (pySplitlines so) "", g.length ≠ 3) →
      (∃ e, systemd_users lo so = .error e) ∧
        ((∀ g ∈ split_by (pySplitlines so) "", g.length = 3 →
            (pyIntE (g.headD "")).isOk = true) →
          systemd_users lo so = .error (.parseError so))) := by
  constructor
  · intro lo so accounts blocks h1 h2 h3 h4 h5 h6
    obtain ⟨us, hus, hlen⟩ := list_users_ok lo accounts h1 h2
    refine ⟨?_, by simpa using h3⟩
    by_cases hacc : accounts = []
    · subst hacc
      have hb : blocks = [] := List.length_eq_zero.mp h3
      have hu : us = [] := List.length_eq_zero.mp hlen
      subst hb
      subst hu
      simp [systemd_users, hus, bind, Except.bind, show_users]
    · have hbne : blocks ≠ [] := by
        intro hb
        rw [hb] at h3
        exact hacc (List.length_eq_zero.mp h3.symm)
      have husne : us ≠ [] := by
        intro hu
        rw [hu] at hlen
        exact hacc (List.length_eq_zero.mp hlen.symm)
      have := show_users_ok so us husne blocks h4 hbne h5 h6
      simp [systemd_users, hus, bind, Except.bind, this]
  · intro lo so us hlu hne hex
    have hisem : (us.map (·.name)).isEmpty = false := by
      cases us with
      | nil => exact absurd rfl hne
      | cons u t => rfl
    have hsu : show_users us so = exceptMapM (parseGroup so) (split_by (pySplitlines so) "") := by
      rw [show_users]
      simp [hisem]
    have H := exceptMapM_parseGroup_err so (split_by (pySplitlines so) "") hex
    constructor
    · obtain ⟨e, he⟩ := H.1
      exact ⟨e, by simp [systemd_users, hlu, bind, Except.bind, hsu, he]⟩
    · intro hall
      have hr := H.2 hall
      simp [systemd_users, hlu, bind, Except.bind, hsu, hr]

/-- Counterexample to C1 as stated: a show-user output containing a 2-line
block, preceded by a 3-line block whose uid line is `x`; `int("x")` raises
`ValueError` before the block-length check, so the failure is not the
`ParseError` carrying the raw output. -/
theorem systemd_users_parse_counterexample :
    ((split_by (pySplitlines "x\nalice\n/run/user/1001\n\n1002\nbob\n") "").map List.length
      = [3, 2]) ∧
    systemd_users "1001 alice\n" "x\nalice\n/run/user/1001\n\n1002\nbob\n" =
      .error .valueError ∧
    systemd_users "1001 alice\n" "x\nalice\n/run/user/1001\n\n1002\nbob\n" ≠
      .error (.parseError "x\nalice\n/run/user/1001\n\n1002\nbob\n") := by
  refine ⟨by decide, by decide, by decide⟩

/-- Witness for C1 at the spec's fixture: two accounts, two well-formed
blocks; and the 2-line-block fixture failing with the parse error. -/
theorem systemd_users_parse_witness :
    systemd_users "1001 alice\n1002 bob\n"
        "1001\nalice\n/run/user/1001\n\n1002\nbob\n/run/user/1002\n" =
      .ok [⟨1001, "alice", "/run/user/1001"⟩, ⟨1002, "bob", "/run/user/1002"⟩] ∧
    systemd_users "1001 alice\n1002 bob\n" "1001\nalice\n/run/user/1001\n\n1002\nbob\n" =
      .error (.parseError "1001\nalice\n/run/user/1001\n\n1002\nbob\n") := by
  constructor
  · exact (systemd_users_parse.1 "1001 alice\n1002 bob\n"
      "1001\nalice\n/run/user/1001\n\n1002\nbob\n/run/user/1002\n"
      [("1001", "alice"), ("1002", "bob")]
      [(("1001", "alice", "/run/user/1001"), 1001), (("1002", "bob", "/run/user/1002"), 1002)]
      (by decide) (by decide) (by decide) (by decide) (by decide) (by decide)).1
  · exact (systemd_users_parse.2 "1001 alice\n1002 bob\n"
      "1001\nalice\n/run/user/1001\n\n1002\nbob\n"
      [⟨"1001", "alice"⟩, ⟨"1002", "bob"⟩]
      (by decide) (by decide) (by decide)).2 (by decide)

/-! ### Claim C3: the su quoting round trip -/

theorem strExt {a b : String} (h : a.data = b.data) : a = b := by
  cases a
  cases b
  exact congrArg String.mk h

theorem strAppend_mk_nil (a : String) : a ++ String.mk [] = a :=
  strExt (by rw [strData_append]; exact List.append_nil _)

theorem strPush_append_mk (a : String) (c : Char) (cs : List Char) :
    a.push c ++ String.mk cs = a ++ String.mk (c :: cs) :=
  strExt (by rw [strData_append, strData_append]; simp [String.push])

theorem shSafe_not_special (c : Char) (h : shSafe c = true) :
    isShWs c = false ∧ c ≠ sqChar ∧ c ≠ '"' ∧ c ≠ '\\' := by
  have hm : c ∈ shSafeChars := of_decide_eq_true h
  fin_cases hm <;> exact ⟨by decide, by decide, by decide, by decide⟩

theorem shlexRun_word_safe :
    ∀ (cs : List Char), (∀ c ∈ cs, shSafe c = true) →
    ∀ (acc : String) (rest : List Char),
      shlexRun .word acc (cs ++ rest) = shlexRun .word (acc ++ String.mk cs) rest := by
  intro cs
  induction cs with
  | nil => intro _ acc rest; rw [strAppend_mk_nil]; rfl
  | cons c cs ih =>
      intro h acc rest
      obtain ⟨hws, hsq, hdq, hesc⟩ := shSafe_not_special c (h c (by simp))
      rw [List.cons_append, shlexRun, if_neg (by simp [hws]), if_neg hsq, if_neg hdq,
        if_neg hesc, ih (fun x hx => h x (by simp [hx])) (acc.push c) rest,
        strPush_append_mk]

theorem shlexRun_sq_escaped :
    ∀ (cs : List Char) (acc : String) (rest : List Char),
      shlexRun .sq acc (cs.flatMap sqEscape ++ sqChar :: rest) =
        shlexRun .word (acc ++ String.mk cs) rest := by
  intro cs
  induction cs with
  | nil =>
      intro acc rest
      rw [strAppend_mk_nil]
      simp [shlexRun]
  | cons c cs ih =>
      intro acc rest
      by_cases hc : c = sqChar
      · subst hc
        rw [show (sqChar :: cs).flatMap sqEscape =
            sqChar :: '"' :: sqChar :: '"' :: sqChar :: cs.flatMap sqEscape from by
          simp [sqEscape]]
        rw [List.cons_append, List.cons_append, List.cons_append, List.cons_append,
          List.cons_append]
        rw [shlexRun, if_pos rfl]
        rw [shlexRun, if_neg (by decide), if_neg (by decide), if_pos rfl]
        rw [shlexRun, if_neg (by decide), if_neg (by decide)]
        rw [shlexRun, if_pos rfl]
        rw [shlexRun, if_neg (by decide), if_pos rfl]
        rw [ih (acc.push sqChar) rest, strPush_append_mk]
      · rw [show (c :: cs).flatMap sqEscape = c :: cs.flatMap sqEscape from by
          simp [sqEscape, hc]]
        rw [List.cons_append, shlexRun, if_neg hc, ih (acc.push c) rest, strPush_append_mk]

theorem shlexRun_consume_quote (w : String) (rest : List Char) :
    shlexRun .out "" ((shlexQuote w).data ++ rest) = shlexRun .word w rest := by
  by_cases h0 : w = ""
  · subst h0
    rw [shlexQuote, if_pos rfl]
    show shlexRun .out "" (sqChar :: sqChar :: rest) = _
    rw [shlexRun, if_neg (by decide), if_pos rfl]
    rw [shlexRun, if_pos rfl]
  · by_cases hsafe : w.data.all shSafe
    · rw [shlexQuote, if_neg h0, if_pos hsafe]
      have hall : ∀ x ∈ w.data, shSafe x = true := by
        simpa [List.all_eq_true] using hsafe
      cases hd : w.data with
      | nil =>
          exact absurd (by rw [← strMk_data w, hd]) h0
      | cons c t =>
          have hc := shSafe_not_special c (hall c (by rw [hd]; simp))
          rw [List.cons_append, shlexRun, if_neg (by simp [hc.1]), if_neg hc.2.1,
            if_neg hc.2.2.1, if_neg hc.2.2.2]
          rw [shlexRun_word_safe t (fun x hx => hall x (by rw [hd]; simp [hx])) _ rest]
          congr 1
          refine strExt ?_
          rw [strData_append, hd]
          simp [String.singleton, String.push]
    · rw [shlexQuote, if_neg h0, if_neg hsafe]
      show shlexRun .out "" ((sqChar :: (w.data.flatMap sqEscape ++ [sqChar])) ++ rest) = _
      rw [List.cons_append, shlexRun, if_neg (by decide), if_pos rfl, List.append_assoc]
      rw [show ([sqChar] ++ rest) = sqChar :: rest from rfl]
      rw [shlexRun_sq_escaped w.data "" rest]
      congr 1

/-- The round trip: splitting the joined argv recovers it exactly. -/
theorem shlexSplit_shlexJoin : ∀ args : List String, shlexSplit (shlexJoin args) = some args := by
  intro args
  induction args with
  | nil => rfl
  | cons w ws ih =>
      cases ws with
      | nil =>
          show shlexRun .out "" (shlexQuote w).data = some [w]
          rw [show (shlexQuote w).data = (shlexQuote w).data ++ [] from (List.append_nil _).symm]
          rw [shlexRun_consume_quote w []]
          rfl
      | cons x xs =>
          show shlexRun .out "" (shlexJoin (w :: x :: xs)).data = some (w :: x :: xs)
          have hdata : (shlexJoin (w :: x :: xs)).data =
              (shlexQuote w).data ++ ' ' :: (shlexJoin (x :: xs)).data := by
            rw [show shlexJoin (w :: x :: xs) = shlexQuote w ++ " " ++ shlexJoin (x :: xs)
              from rfl, strData_append, strData_append]
            simp
          rw [hdata, shlexRun_consume_quote w (' ' :: (shlexJoin (x :: xs)).data)]
          rw [shlexRun, if_pos (by decide)]
          show (shlexSplit (shlexJoin (x :: xs))).map (w :: ·) = _
          rw [ih]
          rfl

/-- Claim C3: the single string `Systemd.su` passes to `su -c` is
`shlex.join` of the inner argv, and one layer of POSIX word splitting
(`shlex.split`) of that string recovers exactly the original argv -- word
count, contents and order -- for every finite sequence of strings. -/
theorem su_quote_round_trip (user : SystemdUser) (cmd : Cmd) :
    (Systemd.su user cmd).args = ["su", "-c", shlexJoin cmd.args, user.name] ∧
    shlexSplit (shlexJoin cmd.args) = some cmd.args :=
  ⟨rfl, shlexSplit_shlexJoin cmd.args⟩
